import Mathlib

/-!
Verification of the chess-engine core: the evaluation library
(`evaluation.ts`), the adaptive engine (`AdaptiveChessAI`) and the
hyperbolic engine (`HyperbolicChessAI`) are shallowly embedded below.
The board/rules engine (chess.js) is an external collaborator, so a
position is modelled abstractly: an 8x8 board of optional pieces, the
side to move, check/checkmate/game-over flags, and the list of legal
verbose moves, each paired with the position that results from playing
it.  Ambient randomness (Math.random and the random-comparator array
shuffles) is modelled by an oracle: a stream of floats and a stream of
list rearrangements, threaded through the functions by an index.
-/

namespace Chess

/-- Piece kinds as in chess.js (`p n b r q k`). -/
inductive PieceT : Type where
  | p | n | b | r | q | k
deriving DecidableEq, Repr

/-- A piece: colour (`white = true` models color `w`) and kind. -/
structure Piece : Type where
  white : Bool
  ptype : PieceT
deriving DecidableEq, Repr

/-- PIECE_VALUES from constants.ts: p=1, n=3, b=3, r=5, q=9, k=0. -/
def PIECE_VALUES : PieceT → ℚ
  | .p => 1
  | .n => 3
  | .b => 3
  | .r => 5
  | .q => 9
  | .k => 0

/-- A verbose move as returned by chess.js `moves({ verbose: true })`:
SAN text, origin and destination squares, optional captured piece kind
and optional promotion piece kind. -/
structure MoveV : Type where
  san : String
  fromSq : String
  toSq : String
  captured : Option PieceT
  promotion : Option PieceT
deriving DecidableEq, Repr

/-- A position, as the core observes it through the rules engine:
the board (row 0 is rank 8, as in chess.js `board()`), the side to
move, the check / checkmate / game-over flags, and the legal verbose
moves, each paired with the position reached by playing it. -/
inductive GameState : Type where
  | mk (board : Fin 8 → Fin 8 → Option Piece)
       (whiteToMove : Bool)
       (check : Bool) (checkmate : Bool) (gameOver : Bool)
       (legal : List (MoveV × GameState)) : GameState

def GameState.board : GameState → Fin 8 → Fin 8 → Option Piece
  | .mk b _ _ _ _ _ => b

def GameState.whiteToMove : GameState → Bool
  | .mk _ w _ _ _ _ => w

def GameState.check : GameState → Bool
  | .mk _ _ c _ _ _ => c

def GameState.checkmate : GameState → Bool
  | .mk _ _ _ c _ _ => c

def GameState.gameOver : GameState → Bool
  | .mk _ _ _ _ o _ => o

def GameState.legal : GameState → List (MoveV × GameState)
  | .mk _ _ _ _ _ l => l

/-- The square name built by the source from board indices:
`String.fromCharCode(97 + c) + (8 - r)`. -/
def squareName (r c : Fin 8) : String :=
  String.mk [Char.ofNat (97 + c.val), Char.ofNat (56 - r.val)]

/-- chess.js `moves()` (non-verbose): the SAN strings of the legal moves. -/
def legalSans (g : GameState) : List String :=
  g.legal.map (fun p => p.1.san)

/-- chess.js `moves({ square: sq, verbose: true })`: the legal moves
whose origin square is `sq`. -/
def movesFrom (g : GameState) (sq : String) : List MoveV :=
  (g.legal.map (fun p => p.1)).filter (fun m => m.fromSq == sq)

/-- The verbose legal move list, without the paired successor states. -/
def verboseMoves (g : GameState) : List MoveV :=
  g.legal.map (fun p => p.1)

/-- chess.js clone-and-`move(san)`: the successor paired with the legal
move whose SAN is `san` (the position itself if `san` is illegal; all
call sites guard with a legality check first, as the source does). -/
def applySan (g : GameState) (san : String) : GameState :=
  match g.legal.find? (fun p => p.1.san == san) with
  | some p => p.2
  | none => g

/-- The 64 (row, column) pairs in the row-major order of the source's
nested `for` loops. -/
def squaresList : List (Fin 8 × Fin 8) :=
  (List.finRange 8).flatMap (fun r => (List.finRange 8).map (fun c => (r, c)))

-- ---------------------------------------------------------------------------
-- Evaluation library (evaluation.ts)
-- ---------------------------------------------------------------------------

/-- countAttacks: how many legal moves leave from square `sq`. -/
def countAttacks (g : GameState) (sq : String) : ℕ :=
  (movesFrom g sq).length

/-- The four center squares with their board indices:
e4 = board[4][4], d4 = board[4][3], e5 = board[3][4], d5 = board[3][3]. -/
def centerSquares : List (String × Fin 8 × Fin 8) :=
  [("e4", 4, 4), ("d4", 4, 3), ("e5", 3, 4), ("d5", 3, 3)]

/-- assessCenterControl: 0.25 per center square occupied by the side to
move, else 0.15 if that side has a legal move landing on it; capped at 1. -/
def assessCenterControl (g : GameState) : ℚ :=
  let control := centerSquares.foldl
    (fun acc csq =>
      match g.board csq.2.1 csq.2.2 with
      | some piece =>
        if piece.white == g.whiteToMove then acc + 0.25
        else if (verboseMoves g).any (fun m => m.toSq == csq.1) then acc + 0.15
        else acc
      | none =>
        if (verboseMoves g).any (fun m => m.toSq == csq.1) then acc + 0.15
        else acc)
    0
  min 1.0 control

/-- The (developed, totalPieces) counters of assessPieceDevelopment:
`totalPieces` counts every piece of the side to move, `developed` its
non-pawn pieces off the home rank. -/
def devCounts (g : GameState) : ℕ × ℕ :=
  squaresList.foldl
    (fun acc rc =>
      match g.board rc.1 rc.2 with
      | none => acc
      | some piece =>
        if piece.white != g.whiteToMove then acc
        else
          let total := acc.2 + 1
          if piece.ptype = PieceT.p then (acc.1, total)
          else
            let rank := 8 - rc.1.val
            if (g.whiteToMove && decide (rank > 1)) ||
               (!g.whiteToMove && decide (rank < 8)) then (acc.1 + 1, total)
            else (acc.1, total))
    (0, 0)

/-- assessPieceDevelopment: developed / max(1, totalPieces - 8). -/
def assessPieceDevelopment (g : GameState) : ℚ :=
  let dc := devCounts g
  (dc.1 : ℚ) / ((max 1 ((dc.2 : ℤ) - 8) : ℤ) : ℚ)

/-- calculateUndefendedPenalty: 0.05 x piece value for every piece of
the side to move standing on a square some legal move captures into;
capped at 0.3.  (The source checks the side to move's own move list, as
written.) -/
def calculateUndefendedPenalty (g : GameState) : ℚ :=
  let penalty := squaresList.foldl
    (fun acc rc =>
      match g.board rc.1 rc.2 with
      | none => acc
      | some piece =>
        if piece.white != g.whiteToMove then acc
        else
          let sq := squareName rc.1 rc.2
          if (verboseMoves g).any (fun m => m.toSq == sq && m.captured.isSome) then
            acc + 0.05 * PIECE_VALUES piece.ptype
          else acc)
    0
  min 0.3 penalty

/-- moveHeuristic: 10 + captured value for captures, then 15 for
promotions, then 5 for SANs containing a check mark, else 0. -/
def moveHeuristic (m : MoveV) : ℚ :=
  match m.captured with
  | some t => 10 + PIECE_VALUES t
  | none =>
    if m.promotion.isSome then 15
    else if m.san.contains '+' then 5
    else 0

/-- calculatePositionComplexity: piece count plus 0.2 x total legal-move
count from every occupied square. -/
def calculatePositionComplexity (g : GameState) : ℚ :=
  squaresList.foldl
    (fun acc rc =>
      match g.board rc.1 rc.2 with
      | none => acc
      | some _ =>
        acc + 1 + (countAttacks g (squareName rc.1 rc.2) : ℚ) * 0.2)
    0

-- ---------------------------------------------------------------------------
-- Stable descending sort (JS `sort((a, b) => h(b) - h(a))`, stable per spec)
-- ---------------------------------------------------------------------------

/-- Insert `x` behind every already-placed element of equal or larger
key, in front of the first strictly smaller one. -/
def insertDesc {α : Type} (h : α → ℚ) (x : α) : List α → List α
  | [] => [x]
  | y :: ys => if h x ≤ h y then y :: insertDesc h x ys else x :: y :: ys

/-- Stable sort, descending by key `h`. -/
def sortDesc {α : Type} (h : α → ℚ) (l : List α) : List α :=
  l.foldl (fun acc x => insertDesc h x acc) []

-- ---------------------------------------------------------------------------
-- JavaScript numbers extended with the two infinities, as used for the
-- alpha/beta window and the running best score (`-Infinity` / `Infinity`)
-- ---------------------------------------------------------------------------

/-- A numeric value or one of the two JS infinities. -/
inductive XNum (α : Type) : Type where
  | ninf : XNum α
  | fin (a : α) : XNum α
  | inf : XNum α
deriving DecidableEq, Repr

namespace XNum

def le {α : Type} [LE α] : XNum α → XNum α → Prop
  | ninf, _ => True
  | _, inf => True
  | fin a, fin b => a ≤ b
  | _, _ => False

def lt {α : Type} [LT α] : XNum α → XNum α → Prop
  | _, ninf => False
  | ninf, _ => True
  | fin a, fin b => a < b
  | fin _, inf => True
  | inf, _ => False

instance decLe {α : Type} [LE α] [DecidableRel (α := α) (· ≤ ·)] :
    ∀ x y : XNum α, Decidable (le x y)
  | ninf, ninf => isTrue trivial
  | ninf, fin _ => isTrue trivial
  | ninf, inf => isTrue trivial
  | fin _, inf => isTrue trivial
  | fin a, fin b => inferInstanceAs (Decidable (a ≤ b))
  | fin _, ninf => isFalse id
  | inf, inf => isTrue trivial
  | inf, fin _ => isFalse id
  | inf, ninf => isFalse id

instance decLt {α : Type} [LT α] [DecidableRel (α := α) (· < ·)] :
    ∀ x y : XNum α, Decidable (lt x y)
  | ninf, ninf => isFalse id
  | fin _, ninf => isFalse id
  | inf, ninf => isFalse id
  | ninf, fin _ => isTrue trivial
  | ninf, inf => isTrue trivial
  | fin a, fin b => inferInstanceAs (Decidable (a < b))
  | fin _, inf => isTrue trivial
  | inf, fin _ => isFalse id
  | inf, inf => isFalse id

/-- JS Math.max on possibly infinite values. -/
def jmax {α : Type} [LE α] [DecidableRel (α := α) (· ≤ ·)] (x y : XNum α) : XNum α :=
  if le x y then y else x

/-- JS Math.min on possibly infinite values. -/
def jmin {α : Type} [LE α] [DecidableRel (α := α) (· ≤ ·)] (x y : XNum α) : XNum α :=
  if le x y then x else y

end XNum

-- ---------------------------------------------------------------------------
-- Randomness oracle: Math.random() values and the random-comparator
-- shuffles, indexed by the number of random events consumed so far
-- ---------------------------------------------------------------------------

/-- An outcome of the ambient randomness: `float i` is the i-th
Math.random() draw; `perm i l` is the rearrangement the i-th
random-comparator `sort` produces on list `l`. -/
structure Oracle : Type where
  float : ℕ → ℚ
  perm : ℕ → List (MoveV × GameState) → List (MoveV × GameState)

-- ---------------------------------------------------------------------------
-- Adaptive engine (AdaptiveChessAI)
-- ---------------------------------------------------------------------------

/-- Opponent style labels. -/
inductive Style : Type where
  | unknown | aggressive | defensive | balanced
deriving DecidableEq, Repr

/-- One history entry appended by updateOpponentAssessment. -/
structure HEntry : Type where
  skillEstimate : ℚ
  style : Style
  qualityScore : ℚ
  styleScore : ℚ
deriving DecidableEq, Repr

/-- The mutable fields of an AdaptiveChessAI instance. -/
structure AIState : Type where
  opponentSkillEstimate : ℚ
  opponentStyle : Style
  adaptiveFactor : ℚ
  history : List HEntry

/-- A freshly constructed AdaptiveChessAI. -/
def initState : AIState :=
  { opponentSkillEstimate := 5
    opponentStyle := .unknown
    adaptiveFactor := 0.8
    history := [] }

/-- analyzeMoveQuality: 0.1 for an illegal SAN, 1.0 on checkmate, else
0.5 + 0.3 (check) + 0.2 (capture SAN) + (center + development)/4 -
undefended penalty, clamped to [0.1, 1.0]. -/
def analyzeMoveQuality (g : GameState) (moveSan : String) : ℚ :=
  if (legalSans g).contains moveSan then
    let clone := applySan g moveSan
    let quality : ℚ := 0.5
    let quality := if clone.check then quality + 0.3 else quality
    if clone.checkmate then 1.0
    else
      let quality := if moveSan.contains 'x' then quality + 0.2 else quality
      let quality := quality + (assessCenterControl clone + assessPieceDevelopment clone) / 4
      let quality := quality - calculateUndefendedPenalty clone
      min 1.0 (max 0.1 quality)
  else 0.1

/-- The (attackScore, defenseScore) pair accumulated by
analyzeMoveStyle over the position reached by the move: for every piece
whose colour is the side to move there, capturing moves from its square
count 1 into attackScore and non-capturing ones 0.1 into defenseScore. -/
def styleCounts (g : GameState) : ℚ × ℚ :=
  squaresList.foldl
    (fun acc rc =>
      match g.board rc.1 rc.2 with
      | none => acc
      | some piece =>
        if piece.white != g.whiteToMove then acc
        else
          let pieceMoves := movesFrom g (squareName rc.1 rc.2)
          let atk := acc.1 + ((pieceMoves.filter (fun m => m.captured.isSome)).length : ℚ)
          let dfn := acc.2 + ((pieceMoves.filter (fun m => !m.captured.isSome)).length : ℚ) * 0.1
          (atk, dfn))
    (0, 0)

/-- analyzeMoveStyle: 0 for an illegal SAN; else, on the resulting
position, (attackScore - defenseScore) / max(1, attackScore +
defenseScore), or 0 when the two scores sum to zero. -/
def analyzeMoveStyle (g : GameState) (moveSan : String) : ℚ :=
  if (legalSans g).contains moveSan then
    let clone := applySan g moveSan
    let sc := styleCounts clone
    if sc.1 + sc.2 = 0 then 0
    else (sc.1 - sc.2) / max 1 (sc.1 + sc.2)
  else 0.0

/-- updateOpponentAssessment: exponentially smooth the skill estimate
toward clamp(quality x 1/(timeTaken + 0.5) x 10, 1, 10), reclassify the
style from the style score, and append a history entry. -/
def updateOpponentAssessment (s : AIState) (g : GameState) (moveSan : String)
    (timeTaken : ℚ) : AIState :=
  let qualityScore := analyzeMoveQuality g moveSan
  let styleScore := analyzeMoveStyle g moveSan
  let skillAdjustment := qualityScore * (1.0 / (timeTaken + 0.5))
  let newEstimate :=
    (1 - s.adaptiveFactor) * s.opponentSkillEstimate +
      s.adaptiveFactor * min 10 (max 1 (skillAdjustment * 10))
  let newStyle : Style :=
    if styleScore > 0.6 then .aggressive
    else if styleScore < -0.6 then .defensive
    else .balanced
  { opponentSkillEstimate := newEstimate
    opponentStyle := newStyle
    adaptiveFactor := s.adaptiveFactor
    history := s.history ++
      [{ skillEstimate := newEstimate, style := newStyle,
         qualityScore := qualityScore, styleScore := styleScore }] }

/-- getSkillLevel: the skill estimate plus uniform(-0.5, 1.0) jitter,
clamped to [1, 10], plus a further +1 (capped at 10) once more than 10
opponent moves have been observed.  Consumes one random float. -/
def getSkillLevel (s : AIState) (o : Oracle) (k : ℕ) : ℚ × ℕ :=
  let adjustment := o.float k * 1.5 - 0.5
  let skill := min 10 (max 1 (s.opponentSkillEstimate + adjustment))
  let skill := if s.history.length > 10 then min 10 (skill + 1) else skill
  (skill, k + 1)

/-- JS Math.round: round half toward positive infinity. -/
def jsRound (q : ℚ) : ℤ := ⌊q + 1 / 2⌋

/-- The base depth table of getDepthForOpponent (with the source's
`?? 4` fallback for a key outside 1..10). -/
def depthTable (k : ℤ) : ℤ :=
  if k = 1 then 1 else if k = 2 then 2 else if k = 3 then 3
  else if k = 4 then 4 else if k = 5 then 5 else if k = 6 then 6
  else if k = 7 then 6 else if k = 8 then 7 else if k = 9 then 8
  else if k = 10 then 9 else 4

/-- getDepthForOpponent on explicit jitter rolls `r1`, `r2` (the two
Math.random() draws): table value at the rounded clamped skill, +1 when
r1 < 0.3, -1 when r2 < 0.3, floored at 1. -/
def getDepthForOpponentR (estimate : ℚ) (r1 r2 : ℚ) : ℤ :=
  let skill := jsRound estimate
  let depth := depthTable (min 10 (max 1 skill))
  let depth := depth + (if r1 < 0.3 then 1 else 0)
  let depth := depth - (if r2 < 0.3 then 1 else 0)
  max 1 depth

/-- getDepthForOpponent, consuming two floats from the oracle. -/
def getDepthForOpponentO (s : AIState) (o : Oracle) (k : ℕ) : ℤ × ℕ :=
  (getDepthForOpponentR s.opponentSkillEstimate (o.float k) (o.float (k + 1)), k + 2)

/-- The signed material sum over a board (white positive). -/
def materialSum (b : Fin 8 → Fin 8 → Option Piece) : ℚ :=
  squaresList.foldl
    (fun acc rc =>
      match b rc.1 rc.2 with
      | none => acc
      | some piece =>
        if piece.white then acc + PIECE_VALUES piece.ptype
        else acc - PIECE_VALUES piece.ptype)
    0

/-- calculateDefenseBonus: 0.05 per legal move available from each
square holding a piece of the side to move. -/
def calculateDefenseBonus (g : GameState) : ℚ :=
  squaresList.foldl
    (fun acc rc =>
      match g.board rc.1 rc.2 with
      | none => acc
      | some piece =>
        if piece.white != g.whiteToMove then acc
        else acc + (countAttacks g (squareName rc.1 rc.2) : ℚ) * 0.05)
    0

/-- calculateAttackBonus: 0.08 per legal capturing move landing on each
square holding an enemy piece. -/
def calculateAttackBonus (g : GameState) : ℚ :=
  squaresList.foldl
    (fun acc rc =>
      match g.board rc.1 rc.2 with
      | none => acc
      | some piece =>
        if piece.white == g.whiteToMove then acc
        else
          let sq := squareName rc.1 rc.2
          let attackers :=
            ((verboseMoves g).filter (fun m => m.toSq == sq && m.captured.isSome)).length
          acc + (attackers : ℚ) * 0.08)
    0

/-- AdaptiveChessAI.evaluateBoard: the signed material sum, plus (when a
style is being countered) a defense or attack bonus signed by whose turn
it is (`turn === "b" ? 1 : -1`). -/
def evaluateBoardA (s : AIState) (g : GameState) : ℚ :=
  let evalScore := materialSum g.board
  if s.opponentStyle = .aggressive then
    evalScore + calculateDefenseBonus g * (if g.whiteToMove then -1 else 1)
  else if s.opponentStyle = .defensive then
    evalScore + calculateAttackBonus g * (if g.whiteToMove then -1 else 1)
  else evalScore

/-- The alpha-beta loop body shared by the maximizing and minimizing
arms of minimax: fold the children through `step`, widening the
running extremum and the window, stopping as soon as beta <= alpha. -/
def searchLoop (step : GameState → XNum ℚ → XNum ℚ → ℕ → XNum ℚ × ℕ) (maximizing : Bool) :
    List (MoveV × GameState) → XNum ℚ → XNum ℚ → XNum ℚ → ℕ → XNum ℚ × ℕ
  | [], _, _, acc, k => (acc, k)
  | mg :: rest, alpha, beta, acc, k =>
    let p := step mg.2 alpha beta k
    if maximizing then
      let acc2 := XNum.jmax acc p.1
      let alpha2 := XNum.jmax alpha p.1
      if XNum.le beta alpha2 then (acc2, p.2)
      else searchLoop step maximizing rest alpha2 beta acc2 p.2
    else
      let acc2 := XNum.jmin acc p.1
      let beta2 := XNum.jmin beta p.1
      if XNum.le beta2 alpha then (acc2, p.2)
      else searchLoop step maximizing rest alpha beta2 acc2 p.2

/-- AdaptiveChessAI.minimax: evaluate at depth 0 or game over;
otherwise possibly shuffle (skill < 5, 30% chance per node) or
heuristic-sort (skill >= 5) the move list, then run the alpha-beta
fold, recursing one ply shallower with `maximizing` flipped. -/
def minimax (s : AIState) (o : Oracle) (skillLevel : ℚ) :
    ℕ → GameState → XNum ℚ → XNum ℚ → Bool → ℕ → XNum ℚ × ℕ
  | 0, g, _, _, _, k => (XNum.fin (evaluateBoardA s g), k)
  | d + 1, g, alpha, beta, maximizing, k =>
    if g.gameOver then (XNum.fin (evaluateBoardA s g), k)
    else
      let p : List (MoveV × GameState) × ℕ :=
        if skillLevel < 5 then
          if o.float k < 0.3 then (o.perm k g.legal, k + 1) else (g.legal, k + 1)
        else if skillLevel ≥ 5 then
          (sortDesc (fun mg => moveHeuristic mg.1) g.legal, k)
        else (g.legal, k)
      searchLoop (fun g2 a b k2 => minimax s o skillLevel d g2 a b (!maximizing) k2)
        maximizing p.1 alpha beta (if maximizing then XNum.ninf else XNum.inf) p.2

/-- The root loop of AdaptiveChessAI.getMove: score each candidate via
`step`, keep the strictly best one (first found wins ties), maintain the
window, and exit early on a forced-mate score (>= 100 for white,
<= -100 for black). -/
def rootLoop (step : GameState → XNum ℚ → XNum ℚ → ℕ → XNum ℚ × ℕ) (white : Bool) :
    List (MoveV × GameState) → MoveV → XNum ℚ → XNum ℚ → XNum ℚ → ℕ → MoveV × ℕ
  | [], best, _, _, _, k => (best, k)
  | mg :: rest, best, bestValue, alpha, beta, k =>
    let p := step mg.2 alpha beta k
    if white then
      let bb := if XNum.lt bestValue p.1 then (mg.1, p.1) else (best, bestValue)
      let alpha2 := XNum.jmax alpha p.1
      if XNum.le (XNum.fin 100) bb.2 then (bb.1, p.2)
      else rootLoop step white rest bb.1 bb.2 alpha2 beta p.2
    else
      let bb := if XNum.lt p.1 bestValue then (mg.1, p.1) else (best, bestValue)
      let beta2 := XNum.jmin beta p.1
      if XNum.le bb.2 (XNum.fin (-100)) then (bb.1, p.2)
      else rootLoop step white rest bb.1 bb.2 alpha beta2 p.2

/-- The candidate list of AdaptiveChessAI.getMove: a random subsample
of 5 (skill < 5) or 15 (skill < 8) moves, then a heuristic descending
sort from skill 5 up. -/
def candidates (skillLevel : ℚ) (o : Oracle) (k : ℕ)
    (moves : List (MoveV × GameState)) : List (MoveV × GameState) × ℕ :=
  let ms : List (MoveV × GameState) × ℕ :=
    if skillLevel < 5 then ((o.perm k moves).take 5, k + 1)
    else if skillLevel < 8 then ((o.perm k moves).take 15, k + 1)
    else (moves, k)
  (if skillLevel ≥ 5 then sortDesc (fun mg => moveHeuristic mg.1) ms.1 else ms.1, ms.2)

/-- Seed the root loop with the first candidate (JS `moves[0]`) and the
infinite initial best bound, and return the chosen SAN (null only on an
empty candidate list, which the caller has already excluded). -/
def rootPick (step : GameState → XNum ℚ → XNum ℚ → ℕ → XNum ℚ × ℕ) (white : Bool)
    (cl : List (MoveV × GameState)) (k : ℕ) : Option String × ℕ :=
  match cl with
  | [] => (none, k)
  | m0 :: rest =>
    let r := rootLoop step white (m0 :: rest) m0.1
      (if white then XNum.ninf else XNum.inf) XNum.ninf XNum.inf k
    (some r.1.san, r.2)

/-- AdaptiveChessAI.getMove: sample a skill level and a depth, reduce
the depth in crowded positions, return null with no legal moves, else
subsample (and, from skill 5 up, heuristic-sort) the candidates and run
the root alpha-beta loop over them. -/
def getMoveA (s : AIState) (o : Oracle) (g : GameState) (k : ℕ) : Option String × ℕ :=
  let sk := getSkillLevel s o k
  let skillLevel := sk.1
  let dp := getDepthForOpponentO s o sk.2
  let pieceCount := (squaresList.filter (fun rc => (g.board rc.1 rc.2).isSome)).length
  let depth : ℤ :=
    if pieceCount > 20 then max 1 (dp.1 - 2)
    else if pieceCount > 10 then max 1 (dp.1 - 1)
    else dp.1
  let moves := g.legal
  if moves.isEmpty then (none, dp.2)
  else
    let cs := candidates skillLevel o dp.2 moves
    rootPick
      (fun g2 a b k2 => minimax s o skillLevel (depth - 1).toNat g2 a b (!g.whiteToMove) k2)
      g.whiteToMove cs.1 cs.2

-- ---------------------------------------------------------------------------
-- Hyperbolic engine (HyperbolicChessAI), over the reals because of the
-- non-integral exponents of its transforms
-- ---------------------------------------------------------------------------

/-- The per-engine constants of a HyperbolicChessAI. -/
structure HyperAI : Type where
  temperature : ℝ
  riskFactor : ℝ

/-- The constants a freshly constructed HyperbolicChessAI carries. -/
noncomputable def hyperDefault : HyperAI := { temperature := 1.2, riskFactor := 0.7 }

open Classical in
/-- JS Math.sign: 1, -1 or 0. -/
noncomputable def jsSign (x : ℝ) : ℝ :=
  if 0 < x then 1 else if x < 0 then -1 else 0

open Classical in
/-- The per-square body of HyperbolicChessAI.evaluateBoard, threading
the (signed evaluation, unsigned attack bonus) accumulator pair: each
piece adds its value plus a temperature-scaled mobility bonus signed by
its colour, and adds 0.1 x captured value x riskFactor per capture
available from its square into the bonus, unsigned. -/
noncomputable def hyperStep (h : HyperAI) (g : GameState) (acc : ℝ × ℝ)
    (rc : Fin 8 × Fin 8) : ℝ × ℝ :=
  match g.board rc.1 rc.2 with
  | none => acc
  | some piece =>
    let sq := squareName rc.1 rc.2
    let mobility : ℝ := (countAttacks g sq : ℕ)
    let value : ℝ := ((PIECE_VALUES piece.ptype : ℚ) : ℝ) + mobility * 0.05 * h.temperature
    let attackedValue : ℝ :=
      (movesFrom g sq).foldl
        (fun acc2 m =>
          match m.captured with
          | some t => acc2 + ((PIECE_VALUES t : ℚ) : ℝ) * 0.1
          | none => acc2)
        0
    let ab := acc.2 + attackedValue * h.riskFactor
    (if piece.white then acc.1 + value else acc.1 - value, ab)

/-- HyperbolicChessAI.evaluateBoard: accumulate the pair over the 64
squares, then pass the signed sum through sign(x)|x|^1.2 and add the
attack bonus afterwards. -/
noncomputable def evaluateBoardH (h : HyperAI) (g : GameState) : ℝ :=
  let p := squaresList.foldl (hyperStep h g) (0, 0)
  jsSign p.1 * |p.1| ^ (1.2 : ℝ) + p.2

/-- applyHyperbolicTransform: sign(score)|score|^1.3. -/
noncomputable def applyHyperbolicTransform (score : ℝ) : ℝ :=
  jsSign score * |score| ^ (1.3 : ℝ)

open Classical in
/-- The candidate loop of HyperbolicChessAI.getMove: transform and
noise each successor's evaluation, keep the strictly best noisy score
(max for white, min for black). -/
noncomputable def hLoop (h : HyperAI) (o : Oracle) (white : Bool) :
    List (MoveV × GameState) → MoveV → XNum ℝ → ℕ → MoveV
  | [], best, _, _ => best
  | mg :: rest, best, bestScore, k =>
    let score : ℝ := applyHyperbolicTransform (evaluateBoardH h mg.2) +
      (((o.float k : ℚ) : ℝ) - 0.5) * h.temperature
    if (white = true ∧ XNum.lt bestScore (XNum.fin score)) ∨
       (white = false ∧ XNum.lt (XNum.fin score) bestScore) then
      hLoop h o white rest mg.1 (XNum.fin score) (k + 1)
    else hLoop h o white rest best bestScore (k + 1)

/-- HyperbolicChessAI.getMove: null with no legal moves, else the best
noisy-scored candidate, seeded with the first move and an infinite
initial bound.  (The computed complexity/time factor is unused in the
source and has no effect on the result.) -/
noncomputable def getMoveH (h : HyperAI) (o : Oracle) (g : GameState) (k : ℕ) :
    Option String :=
  match g.legal with
  | [] => none
  | m0 :: rest =>
    let complexity := calculatePositionComplexity g
    let _timeFactor := min (1.0 : ℚ) (complexity / 20.0)
    some (hLoop h o g.whiteToMove (m0 :: rest) m0.1
      (if g.whiteToMove then XNum.ninf else XNum.inf) k).san

-- ---------------------------------------------------------------------------
-- Claim-oriented decompositions of the hyperbolic evaluation
-- ---------------------------------------------------------------------------

/-- The signed part of `hyperStep` on its own: each piece adds (white)
or subtracts (black) its value plus the temperature-scaled mobility
bonus. -/
noncomputable def mmStep (h : HyperAI) (g : GameState) (acc : ℝ)
    (rc : Fin 8 × Fin 8) : ℝ :=
  match g.board rc.1 rc.2 with
  | none => acc
  | some piece =>
    let sq := squareName rc.1 rc.2
    let mobility : ℝ := (countAttacks g sq : ℕ)
    let value : ℝ := ((PIECE_VALUES piece.ptype : ℚ) : ℝ) + mobility * 0.05 * h.temperature
    if piece.white then acc + value else acc - value

/-- The unsigned part of `hyperStep` on its own: every occupied square
adds 0.1 x captured value x riskFactor per capture available from it,
regardless of the piece's colour. -/
noncomputable def abStep (h : HyperAI) (g : GameState) (acc : ℝ)
    (rc : Fin 8 × Fin 8) : ℝ :=
  match g.board rc.1 rc.2 with
  | none => acc
  | some _ =>
    acc + ((movesFrom g (squareName rc.1 rc.2)).foldl
      (fun acc2 m =>
        match m.captured with
        | some t => acc2 + ((PIECE_VALUES t : ℚ) : ℝ) * 0.1
        | none => acc2)
      0) * h.riskFactor

/-- The signed material-plus-mobility sum of the hyperbolic evaluation,
on its own. -/
noncomputable def hyperMaterialMobility (h : HyperAI) (g : GameState) : ℝ :=
  squaresList.foldl (mmStep h g) 0

/-- The hyperbolic attack bonus on its own, with no sign adjustment by
piece colour. -/
noncomputable def hyperAttackBonus (h : HyperAI) (g : GameState) : ℝ :=
  squaresList.foldl (abStep h g) 0

-- ---------------------------------------------------------------------------
-- Concrete positions used by witnesses and counterexamples
-- ---------------------------------------------------------------------------

/-- A terminal position: empty board, no legal moves, game over. -/
def deadState : GameState :=
  .mk (fun _ _ => none) true false false true []

/-- Board with white king e4, white knight e5, black king e8: a legal
late endgame where the side to move has only 2 pieces, both developed. -/
def devBoard : Fin 8 → Fin 8 → Option Piece := fun r c =>
  if r.val = 4 ∧ c.val = 4 then some { white := true, ptype := .k }
  else if r.val = 3 ∧ c.val = 4 then some { white := true, ptype := .n }
  else if r.val = 0 ∧ c.val = 4 then some { white := false, ptype := .k }
  else none

/-- The endgame position on `devBoard`, white to move. -/
def devState : GameState :=
  .mk devBoard true false false false
    [({ san := "Kd5", fromSq := "e4", toSq := "d5",
        captured := none, promotion := none }, deadState)]

/-- The standard chess starting board. -/
def startBoard : Fin 8 → Fin 8 → Option Piece := fun r c =>
  let back : Fin 8 → PieceT := fun c2 =>
    if c2.val = 0 ∨ c2.val = 7 then .r
    else if c2.val = 1 ∨ c2.val = 6 then .n
    else if c2.val = 2 ∨ c2.val = 5 then .b
    else if c2.val = 3 then .q
    else .k
  if r.val = 0 then some { white := false, ptype := back c }
  else if r.val = 1 then some { white := false, ptype := .p }
  else if r.val = 6 then some { white := true, ptype := .p }
  else if r.val = 7 then some { white := true, ptype := back c }
  else none

/-- The starting position, with a single legal move listed (enough for
the properties probed on it; the claims never quantify over the
completeness of the move list). -/
def startState : GameState :=
  .mk startBoard true false false false
    [({ san := "e4", fromSq := "e2", toSq := "e4",
        captured := none, promotion := none }, deadState)]

/-- Board with white king e2, black king e8. -/
def kkBoard : Fin 8 → Fin 8 → Option Piece := fun r c =>
  if r.val = 6 ∧ c.val = 4 then some { white := true, ptype := .k }
  else if r.val = 0 ∧ c.val = 4 then some { white := false, ptype := .k }
  else none

/-- Position after white played Ke1-e2 in a bare-kings game: black to
move, three quiet king replies listed. -/
def kkAfter : GameState :=
  .mk kkBoard false false false false
    [({ san := "Kd8", fromSq := "e8", toSq := "d8",
        captured := none, promotion := none }, deadState),
     ({ san := "Kf8", fromSq := "e8", toSq := "f8",
        captured := none, promotion := none }, deadState),
     ({ san := "Kd7", fromSq := "e8", toSq := "d7",
        captured := none, promotion := none }, deadState)]

/-- Board with white king e1, black king e8. -/
def kkBeforeBoard : Fin 8 → Fin 8 → Option Piece := fun r c =>
  if r.val = 7 ∧ c.val = 4 then some { white := true, ptype := .k }
  else if r.val = 0 ∧ c.val = 4 then some { white := false, ptype := .k }
  else none

/-- Bare-kings position, white to move, with the move Ke2 leading to
`kkAfter`. -/
def kkBefore : GameState :=
  .mk kkBeforeBoard true false false false
    [({ san := "Ke2", fromSq := "e1", toSq := "e2",
        captured := none, promotion := none }, kkAfter)]

-- ---------------------------------------------------------------------------
-- Natural-number counting views of the rational accumulations (used to
-- evaluate the embeddings on concrete positions and to bound them)
-- ---------------------------------------------------------------------------

/-- The two style counters of analyzeMoveStyle as plain counts, over
the pieces of colour `side`: (capturing replies, non-capturing replies). -/
def styleCountsFor (g : GameState) (side : Bool) : ℕ × ℕ :=
  squaresList.foldl
    (fun acc rc =>
      match g.board rc.1 rc.2 with
      | none => acc
      | some piece =>
        if piece.white != side then acc
        else
          let pieceMoves := movesFrom g (squareName rc.1 rc.2)
          (acc.1 + (pieceMoves.filter (fun m => m.captured.isSome)).length,
           acc.2 + (pieceMoves.filter (fun m => !m.captured.isSome)).length))
    (0, 0)

theorem styleCounts_eq_styleCountsFor (g : GameState) :
    styleCounts g = (((styleCountsFor g g.whiteToMove).1 : ℚ),
      ((styleCountsFor g g.whiteToMove).2 : ℚ) * 0.1) := by
  unfold styleCounts styleCountsFor
  generalize squaresList = l
  suffices h : ∀ (l : List (Fin 8 × Fin 8)) (a d : ℕ),
      l.foldl
        (fun acc rc =>
          match g.board rc.1 rc.2 with
          | none => acc
          | some piece =>
            if piece.white != g.whiteToMove then acc
            else
              let pieceMoves := movesFrom g (squareName rc.1 rc.2)
              (acc.1 + ((pieceMoves.filter (fun m => m.captured.isSome)).length : ℚ),
               acc.2 + ((pieceMoves.filter (fun m => !m.captured.isSome)).length : ℚ) * 0.1))
        ((a : ℚ), (d : ℚ) * 0.1) =
      ((((l.foldl
        (fun acc rc =>
          match g.board rc.1 rc.2 with
          | none => acc
          | some piece =>
            if piece.white != g.whiteToMove then acc
            else
              let pieceMoves := movesFrom g (squareName rc.1 rc.2)
              (acc.1 + (pieceMoves.filter (fun m => m.captured.isSome)).length,
               acc.2 + (pieceMoves.filter (fun m => !m.captured.isSome)).length))
        (a, d)).1 : ℕ) : ℚ),
       (((l.foldl
        (fun acc rc =>
          match g.board rc.1 rc.2 with
          | none => acc
          | some piece =>
            if piece.white != g.whiteToMove then acc
            else
              let pieceMoves := movesFrom g (squareName rc.1 rc.2)
              (acc.1 + (pieceMoves.filter (fun m => m.captured.isSome)).length,
               acc.2 + (pieceMoves.filter (fun m => !m.captured.isSome)).length))
        (a, d)).2 : ℕ) : ℚ) * 0.1) by
    have h0 := h l 0 0
    simpa using h0
  intro l
  induction l with
  | nil => intro a d; rfl
  | cons rc rest ih =>
    intro a d
    simp only [List.foldl_cons]
    cases hb : g.board rc.1 rc.2 with
    | none => exact ih a d
    | some piece =>
      by_cases hw : piece.white != g.whiteToMove
      · simp only [hw, if_true]
        exact ih a d
      · simp only [hw, if_false]
        have ha : ((a : ℚ) +
            (((movesFrom g (squareName rc.1 rc.2)).filter
              (fun m => m.captured.isSome)).length : ℚ)) =
            (((a + ((movesFrom g (squareName rc.1 rc.2)).filter
              (fun m => m.captured.isSome)).length : ℕ)) : ℚ) := by
          push_cast; ring
        have hd : ((d : ℚ) * 0.1 +
            (((movesFrom g (squareName rc.1 rc.2)).filter
              (fun m => !m.captured.isSome)).length : ℚ) * 0.1) =
            (((d + ((movesFrom g (squareName rc.1 rc.2)).filter
              (fun m => !m.captured.isSome)).length : ℕ)) : ℚ) * 0.1 := by
          push_cast; ring
        rw [ha, hd]
        exact ih _ _

-- ---------------------------------------------------------------------------
-- Properties of the stable descending sort
-- ---------------------------------------------------------------------------

theorem insertDesc_perm {α : Type} (h : α → ℚ) (x : α) (l : List α) :
    (insertDesc h x l).Perm (x :: l) := by
  induction l with
  | nil => exact List.Perm.refl _
  | cons z zs ih =>
    simp only [insertDesc]
    split
    · exact (ih.cons z).trans (List.Perm.swap x z zs)
    · exact List.Perm.refl _

theorem sortDesc_perm {α : Type} (h : α → ℚ) (l : List α) :
    (sortDesc h l).Perm l := by
  suffices hgen : ∀ (l acc : List α),
      (l.foldl (fun acc2 x => insertDesc h x acc2) acc).Perm (acc ++ l) by
    simpa using hgen l []
  intro l
  induction l with
  | nil => intro acc; simp
  | cons x xs ih =>
    intro acc
    simp only [List.foldl_cons]
    refine (ih (insertDesc h x acc)).trans ?_
    refine (((insertDesc_perm h x acc).append_right xs).trans ?_)
    exact List.perm_middle.symm

theorem mem_sortDesc {α : Type} (h : α → ℚ) (l : List α) (y : α) :
    y ∈ sortDesc h l ↔ y ∈ l :=
  (sortDesc_perm h l).mem_iff

theorem sortDesc_eq_nil_iff {α : Type} (h : α → ℚ) (l : List α) :
    sortDesc h l = [] ↔ l = [] := by
  constructor
  · intro he
    have := (sortDesc_perm h l).length_eq
    rw [he] at this
    exact List.eq_nil_of_length_eq_zero this.symm
  · intro he; subst he; rfl

theorem pairwise_insertDesc {α : Type} (h : α → ℚ) (x : α) (l : List α)
    (hl : l.Pairwise (fun a b => h b ≤ h a)) :
    (insertDesc h x l).Pairwise (fun a b => h b ≤ h a) := by
  induction l with
  | nil => simp [insertDesc]
  | cons z zs ih =>
    rw [List.pairwise_cons] at hl
    simp only [insertDesc]
    split
    · rename_i hxz
      rw [List.pairwise_cons]
      constructor
      · intro y hy
        rcases List.mem_cons.1 (((insertDesc_perm h x zs).mem_iff).1 hy) with hyx | hyzs
        · rw [hyx]; exact hxz
        · exact hl.1 y hyzs
      · exact ih hl.2
    · rename_i hxz
      rw [List.pairwise_cons]
      constructor
      · intro y hy
        rcases List.mem_cons.1 hy with hyz | hyzs
        · exact hyz ▸ le_of_lt (lt_of_not_le hxz)
        · exact le_trans (hl.1 y hyzs) (le_of_lt (lt_of_not_le hxz))
      · exact List.pairwise_cons.2 hl

theorem pairwise_sortDesc {α : Type} (h : α → ℚ) (l : List α) :
    (sortDesc h l).Pairwise (fun a b => h b ≤ h a) := by
  suffices hgen : ∀ (l acc : List α), acc.Pairwise (fun a b => h b ≤ h a) →
      (l.foldl (fun acc2 x => insertDesc h x acc2) acc).Pairwise (fun a b => h b ≤ h a) by
    exact hgen l [] (by simp)
  intro l
  induction l with
  | nil => intro acc hacc; simpa using hacc
  | cons x xs ih =>
    intro acc hacc
    simp only [List.foldl_cons]
    exact ih _ (pairwise_insertDesc h x acc hacc)

-- ---------------------------------------------------------------------------
-- The chosen move always comes from the candidate list
-- ---------------------------------------------------------------------------

theorem rootLoop_mem (step : GameState → XNum ℚ → XNum ℚ → ℕ → XNum ℚ × ℕ)
    (white : Bool) (l : List (MoveV × GameState)) :
    ∀ (best : MoveV) (bv a b : XNum ℚ) (k : ℕ),
      (rootLoop step white l best bv a b k).1 = best ∨
      (rootLoop step white l best bv a b k).1 ∈ l.map Prod.fst := by
  induction l with
  | nil => intro best bv a b k; left; rfl
  | cons mg rest ih =>
    intro best bv a b k
    simp only [rootLoop]
    split
    · split
      · rename_i hlt
        split
        · right; simp
        · rcases ih mg.1 _ _ _ _ with hc | hc
          · right; rw [hc]; simp
          · right; exact List.mem_cons_of_mem _ hc
      · split
        · left; rfl
        · rcases ih best _ _ _ _ with hc | hc
          · left; exact hc
          · right; exact List.mem_cons_of_mem _ hc
    · split
      · rename_i hlt
        split
        · right; simp
        · rcases ih mg.1 _ _ _ _ with hc | hc
          · right; rw [hc]; simp
          · right; exact List.mem_cons_of_mem _ hc
      · split
        · left; rfl
        · rcases ih best _ _ _ _ with hc | hc
          · left; exact hc
          · right; exact List.mem_cons_of_mem _ hc

-- ---------------------------------------------------------------------------
-- Colour mirroring and the material sum as a double sum
-- ---------------------------------------------------------------------------

/-- Colour-mirror a board: flip the ranks and swap the piece colours. -/
def mirrorBoard (b : Fin 8 → Fin 8 → Option Piece) : Fin 8 → Fin 8 → Option Piece :=
  fun r c => (b r.rev c).map (fun p => { white := !p.white, ptype := p.ptype })

/-- The colour-mirrored counterpart of a position (only the board and
the side to move matter to a style-free evaluation). -/
def mirrorState (g : GameState) : GameState :=
  .mk (mirrorBoard g.board) (!g.whiteToMove) g.check g.checkmate g.gameOver []

/-- The signed value one square contributes to the material sum. -/
def sval (b : Fin 8 → Fin 8 → Option Piece) (rc : Fin 8 × Fin 8) : ℚ :=
  match b rc.1 rc.2 with
  | none => 0
  | some piece =>
    if piece.white then PIECE_VALUES piece.ptype else -(PIECE_VALUES piece.ptype)

theorem materialSum_eq_sum (b : Fin 8 → Fin 8 → Option Piece) :
    materialSum b = ∑ r : Fin 8, ∑ c : Fin 8, sval b (r, c) := by
  have hstep : ∀ (acc : ℚ) (rc : Fin 8 × Fin 8),
      (match b rc.1 rc.2 with
        | none => acc
        | some piece =>
          if piece.white then acc + PIECE_VALUES piece.ptype
          else acc - PIECE_VALUES piece.ptype) = acc + sval b rc := by
    intro acc rc
    unfold sval
    cases b rc.1 rc.2 with
    | none => simp
    | some piece =>
      by_cases hw : piece.white = true
      · simp [hw]
      · simp [hw]; ring
  have hfold : ∀ (l : List (Fin 8 × Fin 8)) (a : ℚ),
      l.foldl
        (fun acc rc =>
          match b rc.1 rc.2 with
          | none => acc
          | some piece =>
            if piece.white then acc + PIECE_VALUES piece.ptype
            else acc - PIECE_VALUES piece.ptype) a = a + (l.map (sval b)).sum := by
    intro l
    induction l with
    | nil => intro a; simp
    | cons rc rest ih =>
      intro a
      simp only [List.foldl_cons, List.map_cons, List.sum_cons]
      rw [hstep, ih]
      ring
  have hsq : (squaresList.map (sval b)).sum = ∑ r : Fin 8, ∑ c : Fin 8, sval b (r, c) := by
    unfold squaresList
    have hflat : ∀ (l : List (Fin 8)) ,
        ((l.flatMap (fun r => (List.finRange 8).map (fun c => (r, c)))).map (sval b)).sum
          = (l.map (fun r => (((List.finRange 8).map (fun c => (r, c))).map (sval b)).sum)).sum := by
      intro l
      induction l with
      | nil => simp
      | cons x xs ih => simp only [List.flatMap_cons, List.map_cons, List.map_append,
          List.sum_append, List.sum_cons, ih]
    rw [hflat]
    have hinner : ∀ r : Fin 8,
        ((((List.finRange 8).map (fun c => (r, c))).map (sval b)).sum)
          = ∑ c : Fin 8, sval b (r, c) := by
      intro r
      rw [List.map_map]
      exact (Fin.sum_univ_def _).symm
    calc ((List.finRange 8).map
            (fun r => (((List.finRange 8).map (fun c => (r, c))).map (sval b)).sum)).sum
        = ((List.finRange 8).map (fun r => ∑ c : Fin 8, sval b (r, c))).sum :=
          congrArg List.sum (List.map_congr_left (fun r _ => hinner r))
      _ = ∑ r : Fin 8, ∑ c : Fin 8, sval b (r, c) := (Fin.sum_univ_def _).symm
  unfold materialSum
  rw [hfold, hsq]
  simp

theorem sval_mirror (b : Fin 8 → Fin 8 → Option Piece) (rc : Fin 8 × Fin 8) :
    sval (mirrorBoard b) rc = -(sval b (rc.1.rev, rc.2)) := by
  unfold sval mirrorBoard
  cases hb : b rc.1.rev rc.2 with
  | none => simp
  | some piece =>
    by_cases hw : piece.white = true
    · simp [hw]
    · simp [hw]

theorem materialSum_mirror (b : Fin 8 → Fin 8 → Option Piece) :
    materialSum (mirrorBoard b) = -(materialSum b) := by
  rw [materialSum_eq_sum, materialSum_eq_sum]
  have h1 : ∀ r : Fin 8, ∑ c : Fin 8, sval (mirrorBoard b) (r, c)
      = -(∑ c : Fin 8, sval b (r.rev, c)) := by
    intro r
    rw [← Finset.sum_neg_distrib]
    exact Finset.sum_congr rfl (fun c _ => sval_mirror b (r, c))
  calc ∑ r : Fin 8, ∑ c : Fin 8, sval (mirrorBoard b) (r, c)
      = ∑ r : Fin 8, -(∑ c : Fin 8, sval b (r.rev, c)) :=
        Finset.sum_congr rfl (fun r _ => h1 r)
    _ = -(∑ r : Fin 8, ∑ c : Fin 8, sval b (r.rev, c)) := by rw [Finset.sum_neg_distrib]
    _ = -(∑ r : Fin 8, ∑ c : Fin 8, sval b (r, c)) := by
        congr 1
        exact Equiv.sum_comp Fin.revPerm (fun r => ∑ c : Fin 8, sval b (r, c))

-- ---------------------------------------------------------------------------
-- The style score as the specification words it (for claim C5)
-- ---------------------------------------------------------------------------

/-- The style score exactly as the specification describes it: counted
over the pieces of the side that just moved (the mover, i.e. the side
to move in the pre-move position), and divided by the plain sum
attackScore + defenseScore. -/
def styleScoreClaimed (g : GameState) (moveSan : String) : ℚ :=
  if (legalSans g).contains moveSan then
    let clone := applySan g moveSan
    let c := styleCountsFor clone g.whiteToMove
    let attack : ℚ := (c.1 : ℚ)
    let defense : ℚ := (c.2 : ℚ) * 0.1
    if attack + defense = 0 then 0 else (attack - defense) / (attack + defense)
  else 0

-- ---------------------------------------------------------------------------
-- Concrete moves for the ordering claims
-- ---------------------------------------------------------------------------

/-- A rook capture: heuristic 10 + 5 = 15. -/
def capRM : MoveV :=
  { san := "Rxd5", fromSq := "d1", toSq := "d5",
    captured := some .r, promotion := none }

/-- A quiet promotion: heuristic 15. -/
def promoM : MoveV :=
  { san := "e8=Q", fromSq := "e7", toSq := "e8",
    captured := none, promotion := some .q }

theorem candidates_subset (sl : ℚ) (o : Oracle) (k : ℕ)
    (mv : List (MoveV × GameState)) (hp : ∀ i l2, (o.perm i l2).Perm l2) :
    ∀ p ∈ (candidates sl o k mv).1, p ∈ mv := by
  intro p hpmem
  simp only [candidates] at hpmem
  split_ifs at hpmem
  all_goals first
    | exact ((hp _ _).mem_iff).1 (List.take_subset _ _ ((mem_sortDesc _ _ _).1 hpmem))
    | exact ((hp _ _).mem_iff).1 (List.take_subset _ _ hpmem)
    | exact (mem_sortDesc _ _ _).1 hpmem
    | exact hpmem

theorem candidates_ne_nil (sl : ℚ) (o : Oracle) (k : ℕ)
    (mv : List (MoveV × GameState)) (hp : ∀ i l2, (o.perm i l2).Perm l2)
    (hmv : mv ≠ []) : (candidates sl o k mv).1 ≠ [] := by
  have hpn : ∀ i, o.perm i mv ≠ [] := by
    intro i hnil
    have hlen := (hp i mv).length_eq
    rw [hnil] at hlen
    exact hmv (List.eq_nil_of_length_eq_zero hlen.symm)
  simp only [candidates]
  split_ifs
  all_goals first
    | (intro hnil
       rcases List.take_eq_nil_iff.1 ((sortDesc_eq_nil_iff _ _).1 hnil) with h5 | hperm
       · exact absurd h5 (by norm_num)
       · exact hpn _ hperm)
    | (intro hnil
       rcases List.take_eq_nil_iff.1 hnil with h5 | hperm
       · exact absurd h5 (by norm_num)
       · exact hpn _ hperm)
    | (intro hnil; exact hmv ((sortDesc_eq_nil_iff _ _).1 hnil))
    | exact hmv

-- ---------------------------------------------------------------------------
-- Splitting the hyperbolic pair fold into its two independent sums
-- ---------------------------------------------------------------------------

theorem foldl_prod_split {β γ δ : Type} (f : γ → β → γ) (f2 : δ → β → δ)
    (step : γ × δ → β → γ × δ) (hstep : ∀ p x, step p x = (f p.1 x, f2 p.2 x)) :
    ∀ (l : List β) (p : γ × δ), l.foldl step p = (l.foldl f p.1, l.foldl f2 p.2) := by
  intro l
  induction l with
  | nil => intro p; rfl
  | cons x xs ih =>
    intro p
    simp only [List.foldl_cons, hstep]
    exact ih _

theorem hyperStep_split (h : HyperAI) (g : GameState) :
    ∀ (p : ℝ × ℝ) (rc : Fin 8 × Fin 8),
      hyperStep h g p rc = (mmStep h g p.1 rc, abStep h g p.2 rc) := by
  intro p rc
  unfold hyperStep mmStep abStep
  cases g.board rc.1 rc.2 <;> rfl

theorem evaluateBoardH_decomp (h : HyperAI) (g : GameState) :
    evaluateBoardH h g = jsSign (hyperMaterialMobility h g) *
      |hyperMaterialMobility h g| ^ (1.2 : ℝ) + hyperAttackBonus h g := by
  unfold evaluateBoardH hyperMaterialMobility hyperAttackBonus
  rw [foldl_prod_split (mmStep h g) (abStep h g) (hyperStep h g)
    (hyperStep_split h g) squaresList (0, 0)]

-- ---------------------------------------------------------------------------
-- The skill-estimate update stays inside [1, 10]
-- ---------------------------------------------------------------------------

theorem update_estimate (s : AIState) (g : GameState) (san : String) (t : ℚ) :
    (updateOpponentAssessment s g san t).opponentSkillEstimate =
      (1 - s.adaptiveFactor) * s.opponentSkillEstimate +
        s.adaptiveFactor *
          min 10 (max 1 (analyzeMoveQuality g san * (1.0 / (t + 0.5)) * 10)) := rfl

theorem update_factor (s : AIState) (g : GameState) (san : String) (t : ℚ) :
    (updateOpponentAssessment s g san t).adaptiveFactor = s.adaptiveFactor := rfl

theorem update_bounds (s : AIState) (g : GameState) (san : String) (t : ℚ)
    (h0 : 0 ≤ s.adaptiveFactor) (h1 : s.adaptiveFactor ≤ 1)
    (hl : 1 ≤ s.opponentSkillEstimate) (hu : s.opponentSkillEstimate ≤ 10) :
    1 ≤ (updateOpponentAssessment s g san t).opponentSkillEstimate ∧
      (updateOpponentAssessment s g san t).opponentSkillEstimate ≤ 10 := by
  rw [update_estimate]
  set c := min 10 (max 1 (analyzeMoveQuality g san * (1.0 / (t + 0.5)) * 10)) with hcdef
  have hc1 : (1 : ℚ) ≤ c := le_min (by norm_num) (le_max_left _ _)
  have hc2 : c ≤ 10 := min_le_left _ _
  constructor
  · nlinarith [mul_nonneg (by linarith : (0:ℚ) ≤ 1 - s.adaptiveFactor)
      (by linarith : (0:ℚ) ≤ s.opponentSkillEstimate - 1),
      mul_nonneg h0 (by linarith : (0:ℚ) ≤ c - 1)]
  · nlinarith [mul_nonneg (by linarith : (0:ℚ) ≤ 1 - s.adaptiveFactor)
      (by linarith : (0:ℚ) ≤ 10 - s.opponentSkillEstimate),
      mul_nonneg h0 (by linarith : (0:ℚ) ≤ 10 - c)]

theorem update_style (s : AIState) (g : GameState) (san : String) (t : ℚ) :
    (updateOpponentAssessment s g san t).opponentStyle =
      (if analyzeMoveStyle g san > 0.6 then Style.aggressive
       else if analyzeMoveStyle g san < -0.6 then Style.defensive
       else Style.balanced) := rfl

theorem update_history (s : AIState) (g : GameState) (san : String) (t : ℚ) :
    (updateOpponentAssessment s g san t).history = s.history ++
      [{ skillEstimate := (updateOpponentAssessment s g san t).opponentSkillEstimate,
         style := (updateOpponentAssessment s g san t).opponentStyle,
         qualityScore := analyzeMoveQuality g san,
         styleScore := analyzeMoveStyle g san }] := rfl

theorem hLoop_mem (h : HyperAI) (o : Oracle) (white : Bool)
    (l : List (MoveV × GameState)) :
    ∀ (best : MoveV) (bs : XNum ℝ) (k : ℕ),
      hLoop h o white l best bs k = best ∨
      hLoop h o white l best bs k ∈ l.map Prod.fst := by
  induction l with
  | nil => intro best bs k; left; rfl
  | cons mg rest ih =>
    intro best bs k
    rw [hLoop]
    split
    · rcases ih mg.1 _ _ with hc | hc
      · right; rw [hc]; simp
      · right; exact List.mem_cons_of_mem _ hc
    · rcases ih best _ _ with hc | hc
      · left; exact hc
      · right; exact List.mem_cons_of_mem _ hc

theorem rootPick_spec (step : GameState → XNum ℚ → XNum ℚ → ℕ → XNum ℚ × ℕ)
    (white : Bool) (cl : List (MoveV × GameState)) (k : ℕ) (g : GameState)
    (hne : cl ≠ []) (hsub : ∀ p ∈ cl, p ∈ g.legal) :
    ∃ san, (rootPick step white cl k).1 = some san ∧ san ∈ legalSans g := by
  rcases cl with _ | ⟨m0, rest⟩
  · exact absurd rfl hne
  · refine ⟨_, rfl, ?_⟩
    rcases rootLoop_mem step white (m0 :: rest) m0.1
        (if white then XNum.ninf else XNum.inf) XNum.ninf XNum.inf k with hb | hm
    · rw [hb]
      exact List.mem_map.2 ⟨m0, hsub m0 (List.mem_cons_self _ _), rfl⟩
    · obtain ⟨p, hpmem, hpeq⟩ := List.mem_map.1 hm
      rw [← hpeq]
      exact List.mem_map.2 ⟨p, hsub p hpmem, rfl⟩

theorem getMoveA_spec (s : AIState) (o : Oracle) (g : GameState) (k : ℕ)
    (hp : ∀ i l2, (o.perm i l2).Perm l2) :
    (g.legal = [] → (getMoveA s o g k).1 = none) ∧
    (g.legal ≠ [] → ∃ san, (getMoveA s o g k).1 = some san ∧ san ∈ legalSans g) := by
  constructor
  · intro hnil
    simp only [getMoveA, hnil]
    rfl
  · intro hne
    have hEmpty : g.legal.isEmpty = false := by
      cases hgl : g.legal with
      | nil => exact absurd hgl hne
      | cons a as => rfl
    simp only [getMoveA, hEmpty, Bool.false_eq_true, reduceIte]
    exact rootPick_spec _ _ _ _ g
      (candidates_ne_nil _ o _ g.legal hp hne)
      (candidates_subset _ o _ g.legal hp)

theorem getMoveH_spec (h : HyperAI) (o : Oracle) (g : GameState) (k : ℕ) :
    (g.legal = [] → getMoveH h o g k = none) ∧
    (g.legal ≠ [] → ∃ san, getMoveH h o g k = some san ∧ san ∈ legalSans g) := by
  constructor
  · intro hnil
    simp only [getMoveH, hnil]
  · intro hne
    rcases hgl : g.legal with _ | ⟨m0, rest⟩
    · exact absurd hgl hne
    · simp only [getMoveH, hgl]
      refine ⟨_, rfl, ?_⟩
      rcases hLoop_mem h o g.whiteToMove (m0 :: rest) m0.1
          (if g.whiteToMove then XNum.ninf else XNum.inf) k with hb | hm
      · rw [hb]
        simp only [legalSans, hgl]
        exact List.mem_map.2 ⟨m0, List.mem_cons_self _ _, rfl⟩
      · obtain ⟨p, hpmem, hpeq⟩ := List.mem_map.1 hm
        rw [← hpeq]
        simp only [legalSans, hgl]
        exact List.mem_map.2 ⟨p, hpmem, rfl⟩

/-- An oracle with fixed Math.random() value 1/2 and identity shuffles
(every shuffle produced by a random comparator is some permutation;
identity is one such outcome). -/
def idOracle : Oracle :=
  { float := fun _ => 1/2, perm := fun _ l => l }

-- ---------------------------------------------------------------------------
-- The claims
-- ---------------------------------------------------------------------------

/-- C1: for every call to updateOpponentAssessment, with any position,
any move SAN (legal or illegal) and any non-negative timeTaken, the
resulting opponentSkillEstimate lies in [1, 10]; equivalently the
estimate staying in [1, 10] is an invariant of every update sequence
starting from the initial estimate 5. -/
theorem claimC1 :
    (∀ (s : AIState) (g : GameState) (san : String) (t : ℚ),
        0 ≤ s.adaptiveFactor → s.adaptiveFactor ≤ 1 → 0 ≤ t →
        1 ≤ s.opponentSkillEstimate → s.opponentSkillEstimate ≤ 10 →
        1 ≤ (updateOpponentAssessment s g san t).opponentSkillEstimate ∧
          (updateOpponentAssessment s g san t).opponentSkillEstimate ≤ 10) ∧
    (∀ inputs : List (GameState × String × ℚ),
        (∀ x ∈ inputs, 0 ≤ x.2.2) →
        1 ≤ (inputs.foldl (fun s2 i => updateOpponentAssessment s2 i.1 i.2.1 i.2.2)
              initState).opponentSkillEstimate ∧
          (inputs.foldl (fun s2 i => updateOpponentAssessment s2 i.1 i.2.1 i.2.2)
              initState).opponentSkillEstimate ≤ 10) := by
  constructor
  · intro s g san t h0 h1 _ hl hu
    exact update_bounds s g san t h0 h1 hl hu
  · have hfold : ∀ (inputs : List (GameState × String × ℚ)) (s : AIState),
        0 ≤ s.adaptiveFactor → s.adaptiveFactor ≤ 1 →
        1 ≤ s.opponentSkillEstimate → s.opponentSkillEstimate ≤ 10 →
        1 ≤ (inputs.foldl (fun s2 i => updateOpponentAssessment s2 i.1 i.2.1 i.2.2)
              s).opponentSkillEstimate ∧
          (inputs.foldl (fun s2 i => updateOpponentAssessment s2 i.1 i.2.1 i.2.2)
              s).opponentSkillEstimate ≤ 10 := by
      intro inputs
      induction inputs with
      | nil => intro s _ _ hl hu; exact ⟨hl, hu⟩
      | cons x xs ih =>
        intro s h0 h1 hl hu
        simp only [List.foldl_cons]
        have hb := update_bounds s x.1 x.2.1 x.2.2 h0 h1 hl hu
        exact ih _ (by rw [update_factor]; exact h0)
          (by rw [update_factor]; exact h1) hb.1 hb.2
    intro inputs _
    exact hfold inputs initState (by norm_num [initState]) (by norm_num [initState])
      (by norm_num [initState]) (by norm_num [initState])

/-- Witness for C1: a concrete single-update sequence with time 0. -/
theorem claimC1_witness :
    1 ≤ (([(deadState, "e4", (0:ℚ))].foldl
          (fun s2 i => updateOpponentAssessment s2 i.1 i.2.1 i.2.2)
          initState)).opponentSkillEstimate ∧
    (([(deadState, "e4", (0:ℚ))].foldl
          (fun s2 i => updateOpponentAssessment s2 i.1 i.2.1 i.2.2)
          initState)).opponentSkillEstimate ≤ 10 :=
  claimC1.2 [(deadState, "e4", 0)]
    (by intro x hx; rw [List.mem_singleton] at hx; subst hx; norm_num)

/-- C6: for every estimate in [1, 10] and all outcomes of the two
jitter rolls, getDepthForOpponent returns an integer at least 1,
differing by at most 1 from the table value of the rounded skill, and
for estimate 10 the result is 8, 9 or 10. -/
theorem claimC6 (estimate r1 r2 : ℚ) (hl : 1 ≤ estimate) (hu : estimate ≤ 10) :
    1 ≤ getDepthForOpponentR estimate r1 r2 ∧
    |getDepthForOpponentR estimate r1 r2 - depthTable (jsRound estimate)| ≤ 1 ∧
    (estimate = 10 →
      getDepthForOpponentR estimate r1 r2 = 8 ∨
      getDepthForOpponentR estimate r1 r2 = 9 ∨
      getDepthForOpponentR estimate r1 r2 = 10) := by
  have hk1 : 1 ≤ jsRound estimate := by
    unfold jsRound
    rw [Int.le_floor]
    push_cast
    linarith
  have hk2 : jsRound estimate ≤ 10 := by
    unfold jsRound
    have hlt : (⌊estimate + 1 / 2⌋ : ℤ) < 11 := by
      rw [Int.floor_lt]
      push_cast
      linarith
    omega
  have hclamp : min 10 (max 1 (jsRound estimate)) = jsRound estimate := by omega
  have htb : 1 ≤ depthTable (jsRound estimate) ∧ depthTable (jsRound estimate) ≤ 9 := by
    set k := jsRound estimate with hk
    clear_value k
    interval_cases k <;> norm_num [depthTable]
  refine ⟨?_, ?_, ?_⟩
  · exact le_max_left 1 _
  · simp only [getDepthForOpponentR]
    rw [hclamp, abs_le]
    obtain ⟨htb1, htb2⟩ := htb
    split_ifs <;> constructor <;> omega
  · intro h10
    subst h10
    have hr : jsRound 10 = 10 := by
      unfold jsRound
      rw [show (10 : ℚ) + 1 / 2 = 21 / 2 by norm_num, Int.floor_eq_iff]
      constructor <;> norm_num
    simp only [getDepthForOpponentR]
    rw [hr, show min 10 (max 1 (10:ℤ)) = 10 by omega,
      show depthTable 10 = 9 by norm_num [depthTable]]
    split_ifs <;> omega

/-- Witness for C6 at estimate 10 and jitter rolls 1/2, 1/2. -/
theorem claimC6_witness :
    1 ≤ getDepthForOpponentR 10 (1/2) (1/2) ∧
    |getDepthForOpponentR 10 (1/2) (1/2) - depthTable (jsRound 10)| ≤ 1 ∧
    ((10:ℚ) = 10 →
      getDepthForOpponentR 10 (1/2) (1/2) = 8 ∨
      getDepthForOpponentR 10 (1/2) (1/2) = 9 ∨
      getDepthForOpponentR 10 (1/2) (1/2) = 10) :=
  claimC6 10 (1/2) (1/2) (by norm_num) (by norm_num)

/-- C7: with no style adjustment active (opponentStyle unknown) the
adaptive evaluateBoard equals the pure signed material sum, depends on
nothing but the board (determinism across states with equal boards),
and negates under colour mirroring. -/
theorem claimC7 (s : AIState) (g : GameState) (hstyle : s.opponentStyle = Style.unknown) :
    evaluateBoardA s g = materialSum g.board ∧
    (∀ g2 : GameState, g2.board = g.board → evaluateBoardA s g2 = evaluateBoardA s g) ∧
    evaluateBoardA s (mirrorState g) = -(evaluateBoardA s g) := by
  have hplain : ∀ g2 : GameState, evaluateBoardA s g2 = materialSum g2.board := by
    intro g2
    unfold evaluateBoardA
    rw [hstyle]
    simp
  refine ⟨hplain g, ?_, ?_⟩
  · intro g2 hb
    rw [hplain, hplain, hb]
  · rw [hplain, hplain]
    show materialSum (mirrorBoard g.board) = -(materialSum g.board)
    exact materialSum_mirror g.board

/-- Witness for C7 on the starting position with a fresh engine. -/
theorem claimC7_witness :
    evaluateBoardA initState startState = materialSum startState.board :=
  (claimC7 initState startState rfl).1

/-- C8: the adaptive move-quality analysis always returns a value in
[0.1, 1.0]; exactly 0.1 when the SAN is not in the legal move list and
exactly 1.0 when the resulting position is checkmate. -/
theorem claimC8 (g : GameState) (san : String) :
    0.1 ≤ analyzeMoveQuality g san ∧ analyzeMoveQuality g san ≤ 1 ∧
    ((legalSans g).contains san = false → analyzeMoveQuality g san = 0.1) ∧
    ((legalSans g).contains san = true → (applySan g san).checkmate = true →
      analyzeMoveQuality g san = 1) := by
  by_cases hc : (legalSans g).contains san = true
  · by_cases hm : (applySan g san).checkmate = true
    · have hval : analyzeMoveQuality g san = 1 := by
        simp only [analyzeMoveQuality, hc, hm, if_true, reduceIte]
        norm_num
      refine ⟨by rw [hval]; norm_num, by rw [hval], ?_, fun _ _ => hval⟩
      intro hfalse
      rw [hc] at hfalse
      exact absurd hfalse (by simp)
    · have hrepr : ∃ x : ℚ, analyzeMoveQuality g san = min 1.0 (max 0.1 x) := by
        simp only [analyzeMoveQuality, hc, hm, if_true, reduceIte]
        exact ⟨_, rfl⟩
      obtain ⟨x, hval⟩ := hrepr
      refine ⟨?_, ?_, ?_, ?_⟩
      · rw [hval]
        exact le_min (by norm_num) (le_max_left _ _)
      · rw [hval]
        exact le_trans (min_le_left _ _) (by norm_num)
      · intro hfalse
        rw [hc] at hfalse
        exact absurd hfalse (by simp)
      · intro _ hm2
        exact absurd hm2 hm
  · have hc2 : (legalSans g).contains san = false := by
      simpa using hc
    have hval : analyzeMoveQuality g san = 0.1 := by
      simp only [analyzeMoveQuality, hc2, Bool.false_eq_true, reduceIte]
    refine ⟨by rw [hval], by rw [hval]; norm_num, fun _ => hval, ?_⟩
    intro htrue
    rw [hc2] at htrue
    exact absurd htrue (by simp)

/-- Witness for C8: an (illegal) SAN on a terminal position. -/
theorem claimC8_witness : analyzeMoveQuality deadState "e4" = 0.1 :=
  (claimC8 deadState "e4").2.2.1 rfl

/-- C10: an update on an illegal SAN is not atomic-on-error: it still
appends one history entry, smooths the estimate toward the clamped
low-quality value (quality 0.1, style score 0) and sets the style to
balanced; moreover after any update (legal or not) the style is never
unknown again. -/
theorem claimC10 :
    (∀ (s : AIState) (g : GameState) (san : String) (t : ℚ),
      (legalSans g).contains san = false →
      (updateOpponentAssessment s g san t).opponentStyle = Style.balanced ∧
      (updateOpponentAssessment s g san t).opponentSkillEstimate =
        (1 - s.adaptiveFactor) * s.opponentSkillEstimate +
          s.adaptiveFactor * min 10 (max 1 (0.1 * (1.0 / (t + 0.5)) * 10)) ∧
      (updateOpponentAssessment s g san t).history = s.history ++
        [{ skillEstimate := (updateOpponentAssessment s g san t).opponentSkillEstimate,
           style := Style.balanced, qualityScore := 0.1, styleScore := 0 }]) ∧
    (∀ (s : AIState) (g : GameState) (san : String) (t : ℚ),
      (updateOpponentAssessment s g san t).opponentStyle ≠ Style.unknown) ∧
    (∀ (inputs : List (GameState × String × ℚ)) (s : AIState), inputs ≠ [] →
      (inputs.foldl (fun s2 i => updateOpponentAssessment s2 i.1 i.2.1 i.2.2)
        s).opponentStyle ≠ Style.unknown) := by
  have h2 : ∀ (s : AIState) (g : GameState) (san : String) (t : ℚ),
      (updateOpponentAssessment s g san t).opponentStyle ≠ Style.unknown := by
    intro s g san t
    rw [update_style]
    split_ifs <;> simp
  refine ⟨?_, h2, ?_⟩
  · intro s g san t hc
    have hq : analyzeMoveQuality g san = 0.1 := by
      simp only [analyzeMoveQuality, hc, Bool.false_eq_true, reduceIte]
    have hs : analyzeMoveStyle g san = 0 := by
      simp only [analyzeMoveStyle, hc, Bool.false_eq_true, reduceIte]
      norm_num
    have hstyle : (updateOpponentAssessment s g san t).opponentStyle = Style.balanced := by
      rw [update_style, hs]
      norm_num
    refine ⟨hstyle, ?_, ?_⟩
    · rw [update_estimate, hq]
    · rw [update_history, hq, hs, hstyle]
  · intro inputs
    induction inputs with
    | nil => intro s hne; exact absurd rfl hne
    | cons x xs ih =>
      intro s _
      rcases xs with _ | ⟨y, ys⟩
      · simp only [List.foldl_cons, List.foldl_nil]
        exact h2 _ _ _ _
      · simp only [List.foldl_cons]
        exact ih _ (by simp)

/-- Witness for C10: updating on an illegal SAN from a fresh engine. -/
theorem claimC10_witness :
    (updateOpponentAssessment initState deadState "e4" 0).opponentStyle = Style.balanced :=
  (claimC10.1 initState deadState "e4" 0 rfl).1

/-- C4 counterexample: in a legal king-and-knight endgame position
(white Ke4, Ne5, black Ke8, white to move) the side to move has 2
pieces, both developed, so assessPieceDevelopment returns
2 / max(1, 2 - 8) = 2, outside [0, 1]. -/
theorem claimC4_counterexample :
    assessPieceDevelopment devState = 2 ∧ ¬(assessPieceDevelopment devState ≤ 1) := by
  have h : assessPieceDevelopment devState = 2 := by
    unfold assessPieceDevelopment
    rw [show devCounts devState = (2, 2) from by decide]
    norm_num
  exact ⟨h, by rw [h]; norm_num⟩

/-- C4 amended: assessPieceDevelopment returns the nonnegative value
developed / max(1, totalPieces - 8); it lies in [0, 1] whenever the
developed count is at most totalPieces - 8 (in particular whenever the
side to move still has at least 8 undeveloped-or-pawn pieces), but can
exceed 1 in small endgames. -/
theorem claimC4_amended (g : GameState) :
    0 ≤ assessPieceDevelopment g ∧
    assessPieceDevelopment g =
      ((devCounts g).1 : ℚ) / ((max 1 (((devCounts g).2 : ℤ) - 8) : ℤ) : ℚ) ∧
    (((devCounts g).1 : ℤ) ≤ ((devCounts g).2 : ℤ) - 8 →
      assessPieceDevelopment g ≤ 1) := by
  have hden : (0:ℚ) < ((max 1 (((devCounts g).2 : ℤ) - 8) : ℤ) : ℚ) := by
    have h1 : (0:ℤ) < max 1 (((devCounts g).2 : ℤ) - 8) := by
      have := le_max_left (1:ℤ) (((devCounts g).2 : ℤ) - 8)
      omega
    exact_mod_cast h1
  refine ⟨?_, rfl, ?_⟩
  · exact div_nonneg (by positivity) (le_of_lt hden)
  · intro hcond
    show ((devCounts g).1 : ℚ) / ((max 1 (((devCounts g).2 : ℤ) - 8) : ℤ) : ℚ) ≤ 1
    rw [div_le_one hden]
    have hle : ((devCounts g).1 : ℤ) ≤ max 1 (((devCounts g).2 : ℤ) - 8) :=
      le_trans hcond (le_max_right _ _)
    exact_mod_cast hle

/-- Witness for C4 (amended) on the full starting position: developed
is 0, totalPieces is 16, and the value 0 lies in [0, 1]. -/
theorem claimC4_witness : assessPieceDevelopment startState ≤ 1 :=
  (claimC4_amended startState).2.2 (by decide)

/-- C5 counterexample: after Ke2 in a bare-kings position the side to
move in the resulting position (black) has 3 quiet king replies, so the
code computes (0 - 0.3) / max(1, 0.3) = -0.3, while the claimed formula
(counted over the side that just moved, divided by the plain sum)
evaluates to 0. -/
theorem claimC5_counterexample :
    analyzeMoveStyle kkBefore "Ke2" = -(3/10) ∧
    styleScoreClaimed kkBefore "Ke2" = 0 ∧
    analyzeMoveStyle kkBefore "Ke2" ≠ styleScoreClaimed kkBefore "Ke2" := by
  have h1 : analyzeMoveStyle kkBefore "Ke2" = -(3/10) := by
    simp only [analyzeMoveStyle,
      show applySan kkBefore "Ke2" = kkAfter from rfl,
      styleCounts_eq_styleCountsFor,
      show (legalSans kkBefore).contains "Ke2" = true from rfl,
      show kkAfter.whiteToMove = false from rfl,
      show styleCountsFor kkAfter false = (0, 3) from by decide, reduceIte]
    norm_num
  have h2 : styleScoreClaimed kkBefore "Ke2" = 0 := by
    simp only [styleScoreClaimed,
      show applySan kkBefore "Ke2" = kkAfter from rfl,
      show (legalSans kkBefore).contains "Ke2" = true from rfl,
      show kkBefore.whiteToMove = true from rfl,
      show styleCountsFor kkAfter true = (0, 0) from by decide, reduceIte]
    norm_num
  exact ⟨h1, h2, by rw [h1, h2]; norm_num⟩

/-- C5 amended: the style score lies in [-1, 1] and equals
(attackScore - defenseScore) / max(1, attackScore + defenseScore) — or
0 when the two scores sum to zero, and 0 on an illegal SAN — where the
scores count capturing (1 each) and non-capturing (0.1 each) legal
replies of the pieces of the side to move in the resulting position,
i.e. the mover's opponent. -/
theorem claimC5_amended (g : GameState) (san : String) :
    -1 ≤ analyzeMoveStyle g san ∧ analyzeMoveStyle g san ≤ 1 ∧
    analyzeMoveStyle g san =
      (if (legalSans g).contains san then
        (let c := styleCountsFor (applySan g san) (applySan g san).whiteToMove
         let attack : ℚ := (c.1 : ℚ)
         let defense : ℚ := (c.2 : ℚ) * 0.1
         if attack + defense = 0 then 0
         else (attack - defense) / max 1 (attack + defense))
       else 0) := by
  by_cases hc : (legalSans g).contains san = true
  · have heq : analyzeMoveStyle g san =
        (let c := styleCountsFor (applySan g san) (applySan g san).whiteToMove
         let attack : ℚ := (c.1 : ℚ)
         let defense : ℚ := (c.2 : ℚ) * 0.1
         if attack + defense = 0 then 0
         else (attack - defense) / max 1 (attack + defense)) := by
      simp only [analyzeMoveStyle, hc, styleCounts_eq_styleCountsFor, reduceIte]
    have hrange : -1 ≤ analyzeMoveStyle g san ∧ analyzeMoveStyle g san ≤ 1 := by
      rw [heq]
      set A : ℚ := ((styleCountsFor (applySan g san) (applySan g san).whiteToMove).1 : ℚ)
        with hA
      set D : ℚ := ((styleCountsFor (applySan g san) (applySan g san).whiteToMove).2 : ℚ)
        * 0.1 with hD
      have hA0 : 0 ≤ A := by rw [hA]; positivity
      have hD0 : 0 ≤ D := by rw [hD]; positivity
      by_cases hz : A + D = 0
      · simp only [hz, reduceIte]
        norm_num
      · simp only [hz, reduceIte]
        have hM : (0:ℚ) < max 1 (A + D) := lt_of_lt_of_le zero_lt_one (le_max_left _ _)
        have hMge : A + D ≤ max 1 (A + D) := le_max_right _ _
        constructor
        · rw [le_div_iff₀ hM]
          linarith
        · rw [div_le_one hM]
          linarith
    exact ⟨hrange.1, hrange.2, by rw [heq, if_pos hc]⟩
  · have hc2 : (legalSans g).contains san = false := by simpa using hc
    have hval : analyzeMoveStyle g san = 0 := by
      simp only [analyzeMoveStyle, hc2, Bool.false_eq_true, reduceIte]
      norm_num
    rw [hval, hc2]
    norm_num

/-- C3 counterexample: a rook capture (captured value 5, heuristic
10 + 5 = 15) and a quiet promotion (heuristic 15) tie, and the stable
descending sort keeps the original order, so the promotion stays BELOW
a capture of equal captured value, contradicting the claim that every
promotion sorts above every capture of equal-or-lesser captured value. -/
theorem claimC3_counterexample :
    sortDesc moveHeuristic [capRM, promoM] = [capRM, promoM] ∧
    capRM.captured = some PieceT.r ∧ PIECE_VALUES PieceT.r ≤ 5 ∧
    promoM.captured = none ∧ promoM.promotion.isSome = true ∧
    moveHeuristic capRM = moveHeuristic promoM := by
  refine ⟨?_, rfl, by norm_num [PIECE_VALUES], rfl, rfl, ?_⟩
  · show insertDesc moveHeuristic promoM (insertDesc moveHeuristic capRM []) =
      [capRM, promoM]
    simp only [insertDesc]
    rw [if_pos]
    norm_num [moveHeuristic, capRM, promoM, PIECE_VALUES]
  · norm_num [moveHeuristic, capRM, promoM, PIECE_VALUES]

/-- C3 amended: moveHeuristic scores in the source's branch order
(captures first: 10 + captured value, then promotions 15, then SANs
with a check mark 5, else 0); sorting any list descending by it is a
stable permutation in which every non-capture promotion sits above
every capture of STRICTLY lesser captured value (a capture above a
promotion must have captured value at least 5 — ties can stay above it)
and every checking move above every quiet move. -/
theorem claimC3 (l : List MoveV) :
    (∀ (m : MoveV) (t : PieceT), m.captured = some t →
        moveHeuristic m = 10 + PIECE_VALUES t) ∧
    (∀ m : MoveV, m.captured = none → m.promotion.isSome = true →
        moveHeuristic m = 15) ∧
    (∀ m : MoveV, m.captured = none → m.promotion = none →
        m.san.contains '+' = true → moveHeuristic m = 5) ∧
    (∀ m : MoveV, m.captured = none → m.promotion = none →
        m.san.contains '+' = false → moveHeuristic m = 0) ∧
    (sortDesc moveHeuristic l).Perm l ∧
    (∀ i j : Fin (sortDesc moveHeuristic l).length, i < j →
        moveHeuristic ((sortDesc moveHeuristic l).get j) ≤
          moveHeuristic ((sortDesc moveHeuristic l).get i)) ∧
    (∀ i j : Fin (sortDesc moveHeuristic l).length, i < j →
        ((sortDesc moveHeuristic l).get j).captured = none →
        ((sortDesc moveHeuristic l).get j).promotion.isSome = true →
        ∀ t : PieceT, ((sortDesc moveHeuristic l).get i).captured = some t →
          5 ≤ PIECE_VALUES t) ∧
    (∀ i j : Fin (sortDesc moveHeuristic l).length, i < j →
        ((sortDesc moveHeuristic l).get j).captured = none →
        ((sortDesc moveHeuristic l).get j).promotion = none →
        ((sortDesc moveHeuristic l).get j).san.contains '+' = true →
        ¬(((sortDesc moveHeuristic l).get i).captured = none ∧
          ((sortDesc moveHeuristic l).get i).promotion = none ∧
          ((sortDesc moveHeuristic l).get i).san.contains '+' = false)) := by
  have hcap : ∀ (m : MoveV) (t : PieceT), m.captured = some t →
      moveHeuristic m = 10 + PIECE_VALUES t := by
    intro m t hm
    simp [moveHeuristic, hm]
  have hprom : ∀ m : MoveV, m.captured = none → m.promotion.isSome = true →
      moveHeuristic m = 15 := by
    intro m hm hp
    simp [moveHeuristic, hm, hp]
  have hcheck : ∀ m : MoveV, m.captured = none → m.promotion = none →
      m.san.contains '+' = true → moveHeuristic m = 5 := by
    intro m hm hp hch
    simp [moveHeuristic, hm, hp, hch]
  have hquiet : ∀ m : MoveV, m.captured = none → m.promotion = none →
      m.san.contains '+' = false → moveHeuristic m = 0 := by
    intro m hm hp hch
    simp [moveHeuristic, hm, hp, hch]
  have hsorted : ∀ i j : Fin (sortDesc moveHeuristic l).length, i < j →
      moveHeuristic ((sortDesc moveHeuristic l).get j) ≤
        moveHeuristic ((sortDesc moveHeuristic l).get i) := by
    have hp := pairwise_sortDesc moveHeuristic l
    rw [List.pairwise_iff_get] at hp
    exact fun i j hij => hp i j hij
  refine ⟨hcap, hprom, hcheck, hquiet, sortDesc_perm moveHeuristic l, hsorted, ?_, ?_⟩
  · intro i j hij hcapj hpromj t hcapi
    have hle := hsorted i j hij
    rw [hprom _ hcapj hpromj, hcap _ t hcapi] at hle
    linarith
  · intro i j hij hcapj hpromj hchj hquieti
    have hle := hsorted i j hij
    rw [hcheck _ hcapj hpromj hchj,
      hquiet _ hquieti.1 hquieti.2.1 hquieti.2.2] at hle
    linarith

/-- Witness for C3 on concrete moves: the promotion scores 15 and the
rook capture scores 10 + 5. -/
theorem claimC3_witness :
    moveHeuristic promoM = 15 ∧ moveHeuristic capRM = 10 + PIECE_VALUES PieceT.r :=
  ⟨(claimC3 []).2.1 promoM rfl rfl, (claimC3 []).1 capRM PieceT.r rfl⟩

/-- C2: on a position with no legal moves both engines' getMove returns
null; on a position with at least one legal move each engine returns
the SAN of one of the position's legal moves, for every outcome of the
internal randomness (any float stream and any shuffle oracle that
permutes its input). -/
theorem claimC2 (s : AIState) (h : HyperAI) (o : Oracle) (g : GameState) (k k2 : ℕ)
    (hp : ∀ i l2, (o.perm i l2).Perm l2) :
    (g.legal = [] → (getMoveA s o g k).1 = none ∧ getMoveH h o g k2 = none) ∧
    (g.legal ≠ [] →
      (∃ san, (getMoveA s o g k).1 = some san ∧ san ∈ legalSans g) ∧
      (∃ san, getMoveH h o g k2 = some san ∧ san ∈ legalSans g)) :=
  ⟨fun hnil => ⟨(getMoveA_spec s o g k hp).1 hnil, (getMoveH_spec h o g k2).1 hnil⟩,
   fun hne => ⟨(getMoveA_spec s o g k hp).2 hne, (getMoveH_spec h o g k2).2 hne⟩⟩

/-- Witness for C2: fresh engines, the identity-shuffle oracle, and
concrete positions on both sides of the dichotomy. -/
theorem claimC2_witness :
    ((deadState.legal = [] →
        (getMoveA initState idOracle deadState 0).1 = none ∧
        getMoveH hyperDefault idOracle deadState 0 = none) ∧
      (deadState.legal ≠ [] →
        (∃ san, (getMoveA initState idOracle deadState 0).1 = some san ∧
          san ∈ legalSans deadState) ∧
        (∃ san, getMoveH hyperDefault idOracle deadState 0 = some san ∧
          san ∈ legalSans deadState))) ∧
    ((kkBefore.legal = [] →
        (getMoveA initState idOracle kkBefore 0).1 = none ∧
        getMoveH hyperDefault idOracle kkBefore 0 = none) ∧
      (kkBefore.legal ≠ [] →
        (∃ san, (getMoveA initState idOracle kkBefore 0).1 = some san ∧
          san ∈ legalSans kkBefore) ∧
        (∃ san, getMoveH hyperDefault idOracle kkBefore 0 = some san ∧
          san ∈ legalSans kkBefore))) :=
  ⟨claimC2 initState hyperDefault idOracle deadState 0 0 (fun _ l => List.Perm.refl l),
   claimC2 initState hyperDefault idOracle kkBefore 0 0 (fun _ l => List.Perm.refl l)⟩

/-- C9: the hyperbolic evaluateBoard equals sign(x) |x|^1.2 of the
signed material-plus-mobility sum, plus the attack bonus that is
accumulated with no sign adjustment by piece colour and added after the
transform; the move-selection transform uses the distinct exponent 1.3. -/
theorem claimC9 :
    (∀ (h : HyperAI) (g : GameState),
      evaluateBoardH h g = jsSign (hyperMaterialMobility h g) *
        |hyperMaterialMobility h g| ^ (1.2 : ℝ) + hyperAttackBonus h g) ∧
    (∀ score : ℝ, applyHyperbolicTransform score = jsSign score * |score| ^ (1.3 : ℝ)) :=
  ⟨fun h g => evaluateBoardH_decomp h g, fun _ => rfl⟩

end Chess
